import Mathlib

/-!
Verification of the grammar-conversion core of `src/compile.cc`
(node-tree-sitter-compiler): the recursive rule-tree builder
(`RuleFromJsRule`), the grammar assembler (`GrammarFromJsGrammar`) and the
compilation entry point (`Compile`), shallowly embedded in Lean.

The C++ code manipulates untyped v8 JavaScript values.  We model the
fragment of v8 behaviour that the code exercises; operations whose v8
behaviour is outside this fragment (for example `Array::Length` applied to
a value that is not an array, after an unchecked `Handle` cast) are mapped
to an explicit `stuck` outcome rather than being given an invented result.

The pending-exception state of the isolate is modelled explicitly: the NAN
throw helpers schedule an exception and return, and the surrounding C++
code keeps executing; a later throw replaces the pending exception.
-/

namespace NodeTreeSitterCompiler

/-- Untyped JavaScript values, as far as `compile.cc` inspects them.
Numbers are restricted to integers (every number consulted by the code is
used through `IntegerValue`, and all grammar descriptors of interest carry
integer precedence levels). -/
inductive JsValue where
  | undef
  | boolean (b : Bool)
  | num (value : Int)
  | str (value : String)
  | arr (elements : List JsValue)
  | obj (fields : List (String × JsValue))

compile_inductive% JsValue

/-- Property lookup on an object's own fields.  JavaScript objects have
unique keys; on a duplicate-free field list this is exactly `Get`.
A missing property reads as `undefined`. -/
def findField : List (String × JsValue) → String → JsValue
  | [], _ => .undef
  | (k, v) :: rest, key => if k = key then v else findField rest key

/-- v8 `Value::IsObject`: true for plain objects and for arrays. -/
def JsValue.isObject : JsValue → Bool
  | .obj _ => true
  | .arr _ => true
  | _ => false

/-- v8 `Value::IsString`. -/
def JsValue.isString : JsValue → Bool
  | .str _ => true
  | _ => false

/-- v8 `Value::IsArray`. -/
def JsValue.isArray : JsValue → Bool
  | .arr _ => true
  | _ => false

/-- v8 `Value::IsUndefined`. -/
def JsValue.isUndefined : JsValue → Bool
  | .undef => true
  | _ => false

/-- Model of `ObjectGet` from compile.cc: `object->Get(NanNew(key))`.  Property
access through a handle that is not an object (after the unchecked
`Handle` cast) is outside the modelled fragment, hence `none`. -/
def ObjectGet (o : JsValue) (key : String) : Option JsValue :=
  match o with
  | .obj fields => some (findField fields key)
  | _ => none

/-- Model of `StringFromJsString` from compile.cc: `String::Utf8Value` applies the
JavaScript ToString conversion to the handed value.  ToString of arrays
and objects is not needed by any modelled path and is left out of the
fragment. -/
def StringFromJsString : JsValue → Option String
  | .str s => some s
  | .undef => some "undefined"
  | .boolean true => some "true"
  | .boolean false => some "false"
  | .num n => some (toString n)
  | _ => none

/-- v8 `Value::IntegerValue`: the JavaScript ToInteger conversion
(`undefined` gives 0 via NaN).  Conversion from strings, arrays and
objects is not needed by any modelled path and is left out of the
fragment. -/
def IntegerValue : JsValue → Option Int
  | .num n => some n
  | .undef => some 0
  | .boolean true => some 1
  | .boolean false => some 0
  | _ => none

/-- A scheduled JavaScript exception, reduced to the two attributes the
code and its callers consult: the message and the `isGrammarError`
marker set on compiler errors (absent, i.e. `false`, on the `TypeError`s
and plain `Error`s thrown during validation). -/
structure JsError where
  message : String
  isGrammarError : Bool
deriving DecidableEq

/-- The isolate's pending-exception slot. -/
abbrev Pending := Option JsError

/-- Model of `NanThrowTypeError`: schedules a `TypeError`, replacing any pending
exception, and lets the surrounding C++ continue. -/
def NanThrowTypeError (msg : String) (_s : Pending) : Pending :=
  some ⟨msg, false⟩

/-- Model of `NanThrowError` on a plain message: schedules an `Error`. -/
def NanThrowError (msg : String) (_s : Pending) : Pending :=
  some ⟨msg, false⟩

/-- Rule nodes of the external compiler's `rule_ptr` tree.  Modelled from
the spec (§3, Rule Node Model — the constructors live in the external
`tree_sitter/compiler.h`, not under src/): each constructor allocates a
node of its variant and returns a non-null pointer; the single-child
constructors store the child pointer exactly as given, so a null child
pointer is representable (`Option`).  The member lists of `seq`/`choice`
are built in compile.cc only from non-null pointers. -/
inductive Rule where
  | blank
  | str (value : String)
  | pattern (value : String)
  | sym (name : String)
  | seq (members : List Rule)
  | choice (members : List Rule)
  | rep (content : Option Rule)
  | rep1 (content : Option Rule)
  | prec (value : Int) (content : Option Rule)
  | prec_left (value : Int) (content : Option Rule)
  | prec_right (value : Int) (content : Option Rule)
  | token (content : Option Rule)
  | err (content : Option Rule)

/-- Outcome of running a modelled computation with a fuel budget.
`fuelOut` is exhaustion of the (artificial) fuel; the fuel-invariance
lemmas below show it never arises once the fuel exceeds the input's size.
`stuck` marks an execution that leaves the modelled fragment of v8
behaviour (e.g. `Array::Length` on a non-array after an unchecked cast). -/
inductive Comp (α : Type) where
  | fuelOut
  | stuck
  | ok (val : α)

/-- The member-building loop shared by the `CHOICE` and `SEQ` cases of
`RuleFromJsRule` (lines 50–57 and 77–84): build each member in order with
the given recursive builder, push it if non-null, and return a null
pointer as soon as a member comes back null.  The value component `none`
is the loop's early `return rule_ptr()`. -/
def membersLoop (recurse : JsValue → Pending → Comp (Option Rule × Pending)) :
    List JsValue → Pending → Comp (Option (List Rule) × Pending)
  | [], s => .ok (some [], s)
  | m :: rest, s =>
    match recurse m s with
    | .fuelOut => .fuelOut
    | .stuck => .stuck
    | .ok (none, s1) => .ok (none, s1)
    | .ok (some r, s1) =>
      match membersLoop recurse rest s1 with
      | .fuelOut => .fuelOut
      | .stuck => .stuck
      | .ok (none, s2) => .ok (none, s2)
      | .ok (some rs, s2) => .ok (some (r :: rs), s2)

/-- The tag dispatch of `RuleFromJsRule` (the `if (type == ...)` chain of
lines 43–127), parameterised by the recursive builder.  Fidelity notes:
the `ERROR`, `REPEAT` and `REPEAT1` cases wrap the recursive result
without a null check (unlike `TOKEN` and the `PREC` family); the `PREC`
family builds the child first and reads the integer only on success; the
final fall-through throws the unknown-tag error.  `CHOICE`/`SEQ` call
`Array::Length` after an unchecked cast of the `members` property, which
is outside the modelled fragment when that property is not an array. -/
def RuleDispatch (recurse : JsValue → Pending → Comp (Option Rule × Pending))
    (fields : List (String × JsValue)) (type : String) (s : Pending) :
    Comp (Option Rule × Pending) :=
  if type = "BLANK" then .ok (some .blank, s)
  else if type = "CHOICE" then
    match findField fields "members" with
    | .arr elems =>
      match membersLoop recurse elems s with
      | .fuelOut => .fuelOut
      | .stuck => .stuck
      | .ok (none, s1) => .ok (none, s1)
      | .ok (some ms, s1) => .ok (some (.choice ms), s1)
    | _ => .stuck
  else if type = "ERROR" then
    match recurse (findField fields "value") s with
    | .fuelOut => .fuelOut
    | .stuck => .stuck
    | .ok (p, s1) => .ok (some (.err p), s1)
  else if type = "PATTERN" then
    match StringFromJsString (findField fields "value") with
    | none => .stuck
    | some v => .ok (some (.pattern v), s)
  else if type = "REPEAT" then
    match recurse (findField fields "value") s with
    | .fuelOut => .fuelOut
    | .stuck => .stuck
    | .ok (p, s1) => .ok (some (.rep p), s1)
  else if type = "REPEAT1" then
    match recurse (findField fields "value") s with
    | .fuelOut => .fuelOut
    | .stuck => .stuck
    | .ok (p, s1) => .ok (some (.rep1 p), s1)
  else if type = "SEQ" then
    match findField fields "members" with
    | .arr elems =>
      match membersLoop recurse elems s with
      | .fuelOut => .fuelOut
      | .stuck => .stuck
      | .ok (none, s1) => .ok (none, s1)
      | .ok (some ms, s1) => .ok (some (.seq ms), s1)
    | _ => .stuck
  else if type = "STRING" then
    match StringFromJsString (findField fields "value") with
    | none => .stuck
    | some v => .ok (some (.str v), s)
  else if type = "PREC" then
    match recurse (findField fields "rule") s with
    | .fuelOut => .fuelOut
    | .stuck => .stuck
    | .ok (none, s1) => .ok (none, s1)
    | .ok (some r, s1) =>
      match IntegerValue (findField fields "value") with
      | none => .stuck
      | some n => .ok (some (.prec n (some r)), s1)
  else if type = "PREC_LEFT" then
    match recurse (findField fields "rule") s with
    | .fuelOut => .fuelOut
    | .stuck => .stuck
    | .ok (none, s1) => .ok (none, s1)
    | .ok (some r, s1) =>
      match IntegerValue (findField fields "value") with
      | none => .stuck
      | some n => .ok (some (.prec_left n (some r)), s1)
  else if type = "PREC_RIGHT" then
    match recurse (findField fields "rule") s with
    | .fuelOut => .fuelOut
    | .stuck => .stuck
    | .ok (none, s1) => .ok (none, s1)
    | .ok (some r, s1) =>
      match IntegerValue (findField fields "value") with
      | none => .stuck
      | some n => .ok (some (.prec_right n (some r)), s1)
  else if type = "TOKEN" then
    match recurse (findField fields "value") s with
    | .fuelOut => .fuelOut
    | .stuck => .stuck
    | .ok (none, s1) => .ok (none, s1)
    | .ok (some r, s1) => .ok (some (.token (some r)), s1)
  else if type = "SYMBOL" then
    match StringFromJsString (findField fields "name") with
    | none => .stuck
    | some v => .ok (some (.sym v), s)
  else .ok (none, NanThrowError ("Unexpected rule type: " ++ type) s)

/-- Model of `RuleFromJsRule` from compile.cc (lines 30–128), fuel-indexed.  The
value component of the result is the returned `rule_ptr` (`none` = null
pointer); the `Pending` component is the pending-exception slot threaded
through.  The entry validation is lines 31–40: a non-object descriptor and
a non-string `type` property each throw a `TypeError` and return null.
`IsObject` is true for arrays, but the property reads that follow are
outside the modelled fragment on an array receiver. -/
def RuleFromJsRuleF : Nat → JsValue → Pending → Comp (Option Rule × Pending)
  | 0, _, _ => .fuelOut
  | fuel + 1, js_rule, s =>
    match js_rule with
    | .obj fields =>
      match findField fields "type" with
      | .str type => RuleDispatch (RuleFromJsRuleF fuel) fields type s
      | _ => .ok (none, NanThrowTypeError "Expected rule type to be a string" s)
    | .arr _ => .stuck
    | _ => .ok (none, NanThrowTypeError "Expected rule to be an object" s)

/-- Wrapper fixing the builder fuel to a sufficient budget. -/
def RuleFromJsRule (js_rule : JsValue) (s : Pending) : Comp (Option Rule × Pending) :=
  RuleFromJsRuleF (sizeOf js_rule + 1) js_rule s

/-- The members loop run with the fully-fuelled builder. -/
def membersFromJsArray (ms : List JsValue) (s : Pending) :
    Comp (Option (List Rule) × Pending) :=
  membersLoop RuleFromJsRule ms s

example : RuleFromJsRule (.obj [("type", .str "BLANK")]) none = .ok (some .blank, none) := rfl

example : RuleFromJsRule (.obj [("type", .str "STRING"), ("value", .str "foo")]) none
    = .ok (some (.str "foo"), none) := rfl

example : RuleFromJsRule (.num 3) none
    = .ok (none, some ⟨"Expected rule to be an object", false⟩) := rfl

example : RuleFromJsRule (.obj [("type", .str "SEQ"),
      ("members", .arr [.obj [("type", .str "STRING"), ("value", .str "a")],
                        .obj [("type", .str "BLANK")]])]) none
    = .ok (some (.seq [.str "a", .blank]), none) := rfl

example : RuleFromJsRule (.obj [("type", .str "ERROR")]) none
    = .ok (some (.err none), some ⟨"Expected rule to be an object", false⟩) := rfl

/-- The external compiler's `Grammar` value.  Modelled from the spec (§3,
Grammar — the class lives in the external `tree_sitter/compiler.h`, not
under src/): an ordered list of (rule name, rule) pairs plus an ordered
list of ubiquitous-token pointers; the constructor used in compile.cc
takes the rule list and leaves the ubiquitous list empty, and the
`ubiquitous_tokens` setter replaces that list.  The setter receives raw
`rule_ptr`s, so null entries are representable. -/
structure Grammar where
  rules : List (String × Rule)
  ubiquitous_tokens : List (Option Rule)

/-- The rule-building loop of `GrammarFromJsGrammar` (lines 140–149):
walk the own-property names in order, build each rule, push the
(name, rule) pair if the rule is non-null, and abort with `none` as soon
as one comes back null. -/
def rulesFromJsObject (rule_fields : List (String × JsValue)) :
    List String → Pending → Comp (Option (List (String × Rule)) × Pending)
  | [], s => .ok (some [], s)
  | name :: rest, s =>
    match RuleFromJsRule (findField rule_fields name) s with
    | .fuelOut => .fuelOut
    | .stuck => .stuck
    | .ok (none, s1) => .ok (none, s1)
    | .ok (some r, s1) =>
      match rulesFromJsObject rule_fields rest s1 with
      | .fuelOut => .fuelOut
      | .stuck => .stuck
      | .ok (none, s2) => .ok (none, s2)
      | .ok (some rs, s2) => .ok (some ((name, r) :: rs), s2)

/-- The ubiquitous-token loop of `GrammarFromJsGrammar` (lines 160–163):
build every entry and push the raw result — the source performs no null
check here, so failed entries are pushed as null pointers and the loop
keeps going. -/
def ubiquitousFromJsArray : List JsValue → Pending → Comp (List (Option Rule) × Pending)
  | [], s => .ok ([], s)
  | m :: rest, s =>
    match RuleFromJsRule m s with
    | .fuelOut => .fuelOut
    | .stuck => .stuck
    | .ok (p, s1) =>
      match ubiquitousFromJsArray rest s1 with
      | .fuelOut => .fuelOut
      | .stuck => .stuck
      | .ok (ps, s2) => .ok (p :: ps, s2)

/-- Model of `GrammarFromJsGrammar` from compile.cc (lines 130–169).  The Boolean
in the result is the `pair<Grammar, bool>` success flag.  v8 fidelity
notes: `IsObject` is true for arrays, but `GetOwnPropertyNames` on an
array enumerates index keys — outside the modelled fragment, hence
`stuck`; own-property names of a plain object are its keys in insertion
order (grammar rule names are ordinary, non-index string keys). -/
def GrammarFromJsGrammar (js_grammar : JsValue) (s : Pending) :
    Comp ((Grammar × Bool) × Pending) :=
  match js_grammar with
  | .obj grammar_fields =>
    match findField grammar_fields "rules" with
    | .obj rule_fields =>
      match rulesFromJsObject rule_fields (rule_fields.map Prod.fst) s with
      | .fuelOut => .fuelOut
      | .stuck => .stuck
      | .ok (none, s1) => .ok ((⟨[], []⟩, false), s1)
      | .ok (some rules, s1) =>
        match findField grammar_fields "ubiquitous" with
        | .undef => .ok ((⟨rules, []⟩, true), s1)
        | .arr tokens =>
          match ubiquitousFromJsArray tokens s1 with
          | .fuelOut => .fuelOut
          | .stuck => .stuck
          | .ok (ptrs, s2) => .ok ((⟨rules, ptrs⟩, true), s2)
        | _ =>
          .ok ((⟨[], []⟩, false),
            NanThrowTypeError "Expected ubiquitous_tokens to be an array" s1)
    | .arr _ => .stuck
    | _ => .ok ((⟨[], []⟩, false), NanThrowTypeError "Expected rules to be an object" s)
  | _ => .stuck

/-- A diagnostic from the external compiler (`GrammarError`): reduced to
the `message` field, the only one compile.cc reads. -/
structure GrammarError where
  message : String

/-- The `Compile` NAN method (lines 171–196).  The external
`tree_sitter::compile` collaborator is a parameter (spec §9: a swappable
collaborator returning artifact text plus an optional structured error).
The result is the value handed back to JavaScript (`none` =
`NanReturnUndefined`) together with the final pending-exception slot; a
pending exception wins over the return value at the JS boundary.
Fidelity notes: the two `NanThrow*` calls at the top are not followed by
`return` in the source, so execution continues past them; on a compiler
error, `NanError` is thrown with the `isGrammarError` property set to
`true`, and the trailing `NanReturnValue` still executes. -/
def Compile (ts_compile : Grammar → String → String × Option GrammarError)
    (js_grammar : JsValue) (s : Pending) : Comp (Option String × Pending) :=
  let s0 := if ¬ js_grammar.isObject
            then NanThrowTypeError "Expected grammar to be an object" s else s
  match js_grammar with
  | .obj grammar_fields =>
    let js_name := findField grammar_fields "name"
    let s1 := if ¬ js_name.isString
              then NanThrowTypeError "Expected grammar name to be a string" s0 else s0
    match StringFromJsString js_name with
    | none => .stuck
    | some name =>
      match GrammarFromJsGrammar js_grammar s1 with
      | .fuelOut => .fuelOut
      | .stuck => .stuck
      | .ok ((grammar, ok), s2) =>
        if ok then
          match ts_compile grammar name with
          | (code, some e) => .ok (some code, some ⟨e.message, true⟩)
          | (code, none) => .ok (some code, s2)
        else .ok (none, s2)
  | _ => .stuck

example : GrammarFromJsGrammar (.obj [("rules", .obj [("a", .obj [("type", .str "BLANK")])])]) none
    = .ok ((⟨[("a", .blank)], []⟩, true), none) := rfl

example : Compile (fun _ nm => ("ART:" ++ nm, none))
      (.obj [("name", .str "g"), ("rules", .obj [("a", .obj [("type", .str "BLANK")])])]) none
    = .ok (some "ART:g", none) := rfl

example : Compile (fun _ _ => ("", some ⟨"boom"⟩))
      (.obj [("name", .str "g"), ("rules", .obj [])]) none
    = .ok (some "", some ⟨"boom", true⟩) := rfl

theorem sizeOf_findField_lt (fields : List (String × JsValue)) (key : String) :
    sizeOf (findField fields key) < sizeOf (JsValue.obj fields) := by
  have h : sizeOf (findField fields key) < 1 + sizeOf fields := by
    induction fields with
    | nil => simp [findField]
    | cons kv rest ih =>
      obtain ⟨k, v⟩ := kv
      by_cases hk : k = key
      · simp only [findField, if_pos hk]
        simp
        omega
      · simp only [findField, if_neg hk]
        simp only [List.cons.sizeOf_spec] at *
        omega
  simpa using h

theorem membersLoop_congr (rec₁ rec₂ : JsValue → Pending → Comp (Option Rule × Pending))
    (ms : List JsValue) (s : Pending)
    (h : ∀ m ∈ ms, ∀ t, rec₁ m t = rec₂ m t) :
    membersLoop rec₁ ms s = membersLoop rec₂ ms s := by
  induction ms generalizing s with
  | nil => rfl
  | cons m rest ih =>
    simp only [membersLoop]
    rw [h m (List.mem_cons_self m rest) s]
    cases rec₂ m s with
    | fuelOut => rfl
    | stuck => rfl
    | ok val =>
      obtain ⟨p, s1⟩ := val
      cases p with
      | none => rfl
      | some r =>
        dsimp only
        rw [ih s1 (fun m' hm' t => h m' (List.mem_cons_of_mem m hm') t)]

theorem RuleDispatch_congr (rec₁ rec₂ : JsValue → Pending → Comp (Option Rule × Pending))
    (fields : List (String × JsValue)) (type : String) (s : Pending)
    (h : ∀ v t, sizeOf v < sizeOf (JsValue.obj fields) → rec₁ v t = rec₂ v t) :
    RuleDispatch rec₁ fields type s = RuleDispatch rec₂ fields type s := by
  have hchild : ∀ key t, rec₁ (findField fields key) t = rec₂ (findField fields key) t :=
    fun key t => h (findField fields key) t (sizeOf_findField_lt fields key)
  have hmems : ∀ key elems t, findField fields key = .arr elems →
      membersLoop rec₁ elems t = membersLoop rec₂ elems t := by
    intro key elems t hkey
    refine membersLoop_congr rec₁ rec₂ elems t (fun m hm u => h m u ?_)
    have h1 := sizeOf_findField_lt fields key
    rw [hkey] at h1
    have h2 := List.sizeOf_lt_of_mem hm
    simp only [JsValue.arr.sizeOf_spec] at h1
    omega
  simp only [RuleDispatch]
  by_cases h1 : type = "BLANK"
  · simp only [if_pos h1]
  simp only [if_neg h1]
  by_cases h2 : type = "CHOICE"
  · simp only [if_pos h2]
    cases hm : findField fields "members" with
    | arr elems =>
      dsimp only
      rw [hmems "members" elems s hm]
    | undef => rfl
    | boolean b => rfl
    | num n => rfl
    | str v => rfl
    | obj fs => rfl
  simp only [if_neg h2]
  by_cases h3 : type = "ERROR"
  · simp only [if_pos h3]
    rw [hchild "value" s]
  simp only [if_neg h3]
  by_cases h4 : type = "PATTERN"
  · simp only [if_pos h4]
  simp only [if_neg h4]
  by_cases h5 : type = "REPEAT"
  · simp only [if_pos h5]
    rw [hchild "value" s]
  simp only [if_neg h5]
  by_cases h6 : type = "REPEAT1"
  · simp only [if_pos h6]
    rw [hchild "value" s]
  simp only [if_neg h6]
  by_cases h7 : type = "SEQ"
  · simp only [if_pos h7]
    cases hm : findField fields "members" with
    | arr elems =>
      dsimp only
      rw [hmems "members" elems s hm]
    | undef => rfl
    | boolean b => rfl
    | num n => rfl
    | str v => rfl
    | obj fs => rfl
  simp only [if_neg h7]
  by_cases h8 : type = "STRING"
  · simp only [if_pos h8]
  simp only [if_neg h8]
  by_cases h9 : type = "PREC"
  · simp only [if_pos h9]
    rw [hchild "rule" s]
  simp only [if_neg h9]
  by_cases h10 : type = "PREC_LEFT"
  · simp only [if_pos h10]
    rw [hchild "rule" s]
  simp only [if_neg h10]
  by_cases h11 : type = "PREC_RIGHT"
  · simp only [if_pos h11]
    rw [hchild "rule" s]
  simp only [if_neg h11]
  by_cases h12 : type = "TOKEN"
  · simp only [if_pos h12]
    rw [hchild "value" s]
  simp only [if_neg h12]

theorem fuel_invariance :
    ∀ (f : Nat) (r : JsValue) (s : Pending) (g : Nat), sizeOf r < f → sizeOf r < g →
      RuleFromJsRuleF f r s = RuleFromJsRuleF g r s := by
  intro f
  induction f with
  | zero => intro r s g h1 _; exact absurd h1 (Nat.not_lt_zero _)
  | succ f ih =>
    intro r s g h1 h2
    cases g with
    | zero => exact absurd h2 (Nat.not_lt_zero _)
    | succ g =>
      cases r with
      | undef => rfl
      | boolean b => rfl
      | num n => rfl
      | str v => rfl
      | arr elems => rfl
      | obj fields =>
        simp only [RuleFromJsRuleF]
        cases hty : findField fields "type" with
        | str type =>
          show RuleDispatch (RuleFromJsRuleF f) fields type s
              = RuleDispatch (RuleFromJsRuleF g) fields type s
          refine RuleDispatch_congr _ _ fields type s (fun v t hv => ih v t g ?_ ?_)
          · simp only [JsValue.obj.sizeOf_spec] at h1 hv; omega
          · simp only [JsValue.obj.sizeOf_spec] at h2 hv; omega
        | undef => rfl
        | boolean b => rfl
        | num n => rfl
        | arr es => rfl
        | obj fs => rfl

theorem RuleFromJsRuleF_eq (f : Nat) (r : JsValue) (s : Pending) (h : sizeOf r < f) :
    RuleFromJsRuleF f r s = RuleFromJsRule r s :=
  fuel_invariance f r s (sizeOf r + 1) h (Nat.lt_succ_self _)

/-- Unfolding equation for the fully-fuelled builder on an object
descriptor with a string `type` property: it dispatches with itself as
the recursive builder. -/
theorem RuleFromJsRule_obj (fields : List (String × JsValue)) (type : String) (s : Pending)
    (hty : findField fields "type" = .str type) :
    RuleFromJsRule (.obj fields) s = RuleDispatch RuleFromJsRule fields type s := by
  unfold RuleFromJsRule
  simp only [RuleFromJsRuleF, hty]
  refine RuleDispatch_congr _ _ fields type s (fun v t hv => RuleFromJsRuleF_eq _ v t ?_)
  simp only [JsValue.obj.sizeOf_spec] at hv ⊢
  omega

theorem membersLoop_ne_fuelOut (recurse : JsValue → Pending → Comp (Option Rule × Pending))
    (ms : List JsValue) (s : Pending)
    (h : ∀ m ∈ ms, ∀ t, recurse m t ≠ .fuelOut) :
    membersLoop recurse ms s ≠ .fuelOut := by
  induction ms generalizing s with
  | nil => nofun
  | cons m rest ih =>
    simp only [membersLoop]
    cases hc : recurse m s with
    | fuelOut => exact absurd hc (h m (List.mem_cons_self m rest) s)
    | stuck => nofun
    | ok val =>
      obtain ⟨p, s1⟩ := val
      cases p with
      | none => nofun
      | some r =>
        dsimp only
        cases hrest : membersLoop recurse rest s1 with
        | fuelOut =>
          exact absurd hrest (ih s1 (fun m' hm' t => h m' (List.mem_cons_of_mem m hm') t))
        | stuck => nofun
        | ok val2 =>
          obtain ⟨q, s2⟩ := val2
          cases q with
          | none => nofun
          | some rs => nofun

theorem RuleDispatch_ne_fuelOut (recurse : JsValue → Pending → Comp (Option Rule × Pending))
    (fields : List (String × JsValue)) (type : String) (s : Pending)
    (h : ∀ v t, sizeOf v < sizeOf (JsValue.obj fields) → recurse v t ≠ .fuelOut) :
    RuleDispatch recurse fields type s ≠ .fuelOut := by
  have hchild : ∀ key t, recurse (findField fields key) t ≠ .fuelOut :=
    fun key t => h (findField fields key) t (sizeOf_findField_lt fields key)
  have hmems : ∀ key elems t, findField fields key = .arr elems →
      membersLoop recurse elems t ≠ .fuelOut := by
    intro key elems t hkey
    refine membersLoop_ne_fuelOut recurse elems t (fun m hm u => h m u ?_)
    have h1 := sizeOf_findField_lt fields key
    rw [hkey] at h1
    have h2 := List.sizeOf_lt_of_mem hm
    simp only [JsValue.arr.sizeOf_spec] at h1
    omega
  have hsingle : ∀ (key : String) (wrap : Option Rule → Pending → Comp (Option Rule × Pending)),
      (∀ p t, wrap p t ≠ .fuelOut) →
      (match recurse (findField fields key) s with
        | .fuelOut => Comp.fuelOut
        | .stuck => Comp.stuck
        | .ok (p, s1) => wrap p s1) ≠ .fuelOut := by
    intro key wrap hwrap
    cases hc : recurse (findField fields key) s with
    | fuelOut => exact absurd hc (hchild key s)
    | stuck => nofun
    | ok val => obtain ⟨p, s1⟩ := val; exact hwrap p s1
  have hmatch : ∀ (key : String) (wrap : List Rule → Pending → Comp (Option Rule × Pending)),
      (∀ rs t, wrap rs t ≠ .fuelOut) →
      (match findField fields key with
        | .arr elems =>
          (match membersLoop recurse elems s with
            | .fuelOut => Comp.fuelOut
            | .stuck => Comp.stuck
            | .ok (none, s1) => Comp.ok (none, s1)
            | .ok (some ms, s1) => wrap ms s1)
        | _ => Comp.stuck) ≠ .fuelOut := by
    intro key wrap hwrap
    cases hk : findField fields key with
    | arr elems =>
      dsimp only
      cases hl : membersLoop recurse elems s with
      | fuelOut => exact absurd hl (hmems key elems s hk)
      | stuck => nofun
      | ok val =>
        obtain ⟨q, s1⟩ := val
        cases q with
        | none => nofun
        | some ms => exact hwrap ms s1
    | undef => nofun
    | boolean b => nofun
    | num n => nofun
    | str v => nofun
    | obj fs => nofun
  simp only [RuleDispatch]
  by_cases h1 : type = "BLANK"
  · simp only [if_pos h1]; nofun
  simp only [if_neg h1]
  by_cases h2 : type = "CHOICE"
  · simp only [if_pos h2]
    exact hmatch "members" (fun ms s1 => .ok (some (.choice ms), s1)) (fun _ _ => by nofun)
  simp only [if_neg h2]
  by_cases h3 : type = "ERROR"
  · simp only [if_pos h3]
    exact hsingle "value" (fun p s1 => .ok (some (.err p), s1)) (fun _ _ => by nofun)
  simp only [if_neg h3]
  by_cases h4 : type = "PATTERN"
  · simp only [if_pos h4]
    cases StringFromJsString (findField fields "value") <;> nofun
  simp only [if_neg h4]
  by_cases h5 : type = "REPEAT"
  · simp only [if_pos h5]
    exact hsingle "value" (fun p s1 => .ok (some (.rep p), s1)) (fun _ _ => by nofun)
  simp only [if_neg h5]
  by_cases h6 : type = "REPEAT1"
  · simp only [if_pos h6]
    exact hsingle "value" (fun p s1 => .ok (some (.rep1 p), s1)) (fun _ _ => by nofun)
  simp only [if_neg h6]
  by_cases h7 : type = "SEQ"
  · simp only [if_pos h7]
    exact hmatch "members" (fun ms s1 => .ok (some (.seq ms), s1)) (fun _ _ => by nofun)
  simp only [if_neg h7]
  by_cases h8 : type = "STRING"
  · simp only [if_pos h8]
    cases StringFromJsString (findField fields "value") <;> nofun
  simp only [if_neg h8]
  by_cases h9 : type = "PREC"
  · simp only [if_pos h9]
    cases hc : recurse (findField fields "rule") s with
    | fuelOut => exact absurd hc (hchild "rule" s)
    | stuck => nofun
    | ok val =>
      obtain ⟨p, s1⟩ := val
      cases p with
      | none => nofun
      | some r =>
        dsimp only
        cases IntegerValue (findField fields "value") <;> nofun
  simp only [if_neg h9]
  by_cases h10 : type = "PREC_LEFT"
  · simp only [if_pos h10]
    cases hc : recurse (findField fields "rule") s with
    | fuelOut => exact absurd hc (hchild "rule" s)
    | stuck => nofun
    | ok val =>
      obtain ⟨p, s1⟩ := val
      cases p with
      | none => nofun
      | some r =>
        dsimp only
        cases IntegerValue (findField fields "value") <;> nofun
  simp only [if_neg h10]
  by_cases h11 : type = "PREC_RIGHT"
  · simp only [if_pos h11]
    cases hc : recurse (findField fields "rule") s with
    | fuelOut => exact absurd hc (hchild "rule" s)
    | stuck => nofun
    | ok val =>
      obtain ⟨p, s1⟩ := val
      cases p with
      | none => nofun
      | some r =>
        dsimp only
        cases IntegerValue (findField fields "value") <;> nofun
  simp only [if_neg h11]
  by_cases h12 : type = "TOKEN"
  · simp only [if_pos h12]
    cases hc : recurse (findField fields "value") s with
    | fuelOut => exact absurd hc (hchild "value" s)
    | stuck => nofun
    | ok val =>
      obtain ⟨p, s1⟩ := val
      cases p <;> nofun
  simp only [if_neg h12]
  by_cases h13 : type = "SYMBOL"
  · simp only [if_pos h13]
    cases StringFromJsString (findField fields "name") <;> nofun
  simp only [if_neg h13]
  nofun

theorem ruleF_ne_fuelOut :
    ∀ (f : Nat) (r : JsValue) (s : Pending), sizeOf r < f →
      RuleFromJsRuleF f r s ≠ .fuelOut := by
  intro f
  induction f with
  | zero => intro r s h1; exact absurd h1 (Nat.not_lt_zero _)
  | succ f ih =>
    intro r s h1
    cases r with
    | undef => nofun
    | boolean b => nofun
    | num n => nofun
    | str v => nofun
    | arr elems => nofun
    | obj fields =>
      simp only [RuleFromJsRuleF]
      cases hty : findField fields "type" with
      | str type =>
        show RuleDispatch (RuleFromJsRuleF f) fields type s ≠ .fuelOut
        refine RuleDispatch_ne_fuelOut _ fields type s (fun v t hv => ih v t ?_)
        simp only [JsValue.obj.sizeOf_spec] at h1 hv
        omega
      | undef => nofun
      | boolean b => nofun
      | num n => nofun
      | arr es => nofun
      | obj fs => nofun

/-- C10: the Rule Builder terminates on every input — on any finite
descriptor tree, any fuel budget beyond the tree's size yields the same
result as the canonical run, and that result is never fuel exhaustion:
the recursion (which descends only into the strictly smaller `members`,
`value` and `rule` subtrees) needs finitely many steps, bounded by the
tree's size, and returns a rule pointer or a failure. -/
theorem c10_rule_builder_terminates (r : JsValue) (s : Pending) (f : Nat)
    (h : sizeOf r < f) :
    RuleFromJsRuleF f r s = RuleFromJsRule r s ∧ RuleFromJsRule r s ≠ .fuelOut :=
  ⟨RuleFromJsRuleF_eq f r s h,
   ruleF_ne_fuelOut (sizeOf r + 1) r s (Nat.lt_succ_self _)⟩

theorem c10_witness :
    RuleFromJsRuleF 10000 (.obj [("type", .str "PREC_LEFT"), ("value", .num 2),
        ("rule", .obj [("type", .str "SYMBOL"), ("name", .str "expr")])]) none
      = RuleFromJsRule (.obj [("type", .str "PREC_LEFT"), ("value", .num 2),
        ("rule", .obj [("type", .str "SYMBOL"), ("name", .str "expr")])]) none
    ∧ RuleFromJsRule (.obj [("type", .str "PREC_LEFT"), ("value", .num 2),
        ("rule", .obj [("type", .str "SYMBOL"), ("name", .str "expr")])]) none ≠ .fuelOut :=
  c10_rule_builder_terminates _ none 10000 (by decide)

/-- C1: the claim — for `ERROR`, `REPEAT`, `REPEAT1` and `TOKEN`, a
failing required child makes the builder produce no Rule Node and
propagate the failure, never a composite node wrapping a failed child —
is contradicted by the code for the first three tags: with the required
`value` property absent, the child build fails (throwing "Expected rule
to be an object" and returning null), yet the builder returns a non-null
`err`/`rep`/`rep1` node wrapping the null child.  Only `TOKEN` checks
the child and propagates the failure. -/
theorem c1_single_child_failure_wrapped :
    RuleFromJsRule (.obj [("type", .str "ERROR")]) none
      = .ok (some (.err none), some ⟨"Expected rule to be an object", false⟩)
    ∧ RuleFromJsRule (.obj [("type", .str "REPEAT")]) none
      = .ok (some (.rep none), some ⟨"Expected rule to be an object", false⟩)
    ∧ RuleFromJsRule (.obj [("type", .str "REPEAT1")]) none
      = .ok (some (.rep1 none), some ⟨"Expected rule to be an object", false⟩)
    ∧ RuleFromJsRule (.obj [("type", .str "TOKEN")]) none
      = .ok (none, some ⟨"Expected rule to be an object", false⟩) :=
  ⟨rfl, rfl, rfl, rfl⟩

/-- C2: the claim — a failing entry in the ubiquitous-token list makes
grammar assembly fail as a whole, surfacing the first failing entry's
error and returning no Grammar with the remaining entries — is
contradicted by the code: the ubiquitous loop pushes each raw build
result without a null check, so assembly returns success (`true`) with a
Grammar whose ubiquitous list holds a null pointer for the failed first
entry followed by the built remaining entry, while the failed entry's
exception is merely left pending. -/
theorem c2_ubiquitous_failure_not_propagated :
    GrammarFromJsGrammar (.obj [("rules", .obj []),
        ("ubiquitous", .arr [.obj [("type", .str "FOO")], .obj [("type", .str "BLANK")]])]) none
      = .ok ((⟨[], [none, some .blank]⟩, true), some ⟨"Unexpected rule type: FOO", false⟩) :=
  rfl

/-- A probing stand-in for the external `tree_sitter::compile`
collaborator: succeeds and records the grammar name it was invoked
with in the artifact text. -/
def probeCompiler : Grammar → String → String × Option GrammarError :=
  fun _ nm => ("COMPILED:" ++ nm, none)

/-- C3: the claim — an absent or non-string grammar `name` raises a
validation error and the external compiler is never invoked in that call
— is contradicted by the code: `Compile` throws "Expected grammar name
to be a string" but lacks a `return` after the throw, so it proceeds to
assemble the grammar and invoke the external compiler anyway, passing
the ToString coercion "undefined" as the name; the compiler's artifact
is even computed as the (exception-shadowed) return value. -/
theorem c3_compiler_invoked_despite_name_error :
    Compile probeCompiler (.obj [("rules", .obj [("a", .obj [("type", .str "BLANK")])])]) none
      = .ok (some "COMPILED:undefined", some ⟨"Expected grammar name to be a string", false⟩) :=
  rfl

/-- C4 counterexample: a `STRING` descriptor missing its required `value`
field does not produce a validation error — the builder silently coerces
the absent property (ToString of `undefined`) and returns the Rule Node
`str "undefined"` with no exception pending, contradicting the claim
that a missing required field always yields a shape error and never a
Rule Node. -/
theorem c4_counterexample :
    RuleFromJsRule (.obj [("type", .str "STRING")]) none
      = .ok (some (.str "undefined"), none) :=
  rfl

/-- C4 amended: only two shapes are validated by the Rule Builder — a
descriptor that is not an object raises "Expected rule to be an object",
and a missing or non-string `type` raises "Expected rule type to be a
string".  The other required fields are not validated: a missing
string-valued field (`STRING`/`PATTERN` `value`, `SYMBOL` `name`) is
coerced via ToString to "undefined" and a Rule Node is produced with no
error, and a missing `PREC`-family `value` is coerced to integer 0.
(A missing or non-array `members` of `SEQ`/`CHOICE` is undefined
behaviour in the source — an unchecked array cast — not a described
shape error.) -/
theorem c4_field_validation_amended :
    (∀ (r : JsValue) (s : Pending), r.isObject = false →
      RuleFromJsRule r s = .ok (none, some ⟨"Expected rule to be an object", false⟩))
    ∧ (∀ (fields : List (String × JsValue)) (s : Pending),
        (findField fields "type").isString = false →
        RuleFromJsRule (.obj fields) s
          = .ok (none, some ⟨"Expected rule type to be a string", false⟩))
    ∧ (∀ s : Pending, RuleFromJsRule (.obj [("type", .str "STRING")]) s
        = .ok (some (.str "undefined"), s))
    ∧ (∀ s : Pending, RuleFromJsRule (.obj [("type", .str "PATTERN")]) s
        = .ok (some (.pattern "undefined"), s))
    ∧ (∀ s : Pending, RuleFromJsRule (.obj [("type", .str "SYMBOL")]) s
        = .ok (some (.sym "undefined"), s))
    ∧ (∀ s : Pending,
        RuleFromJsRule (.obj [("type", .str "PREC"), ("rule", .obj [("type", .str "BLANK")])]) s
          = .ok (some (.prec 0 (some .blank)), s)) := by
  refine ⟨?_, ?_, ?_, ?_, ?_, ?_⟩
  · intro r s hobj
    cases r with
    | undef => rfl
    | boolean b => rfl
    | num n => rfl
    | str v => rfl
    | arr elems => simp [JsValue.isObject] at hobj
    | obj fields => simp [JsValue.isObject] at hobj
  · intro fields s hty
    unfold RuleFromJsRule
    simp only [RuleFromJsRuleF]
    cases hf : findField fields "type" with
    | str v => rw [hf] at hty; simp [JsValue.isString] at hty
    | undef => rfl
    | boolean b => rfl
    | num n => rfl
    | arr es => rfl
    | obj fs => rfl
  · intro s
    rw [RuleFromJsRule_obj _ "STRING" s (by simp [findField])]
    simp [RuleDispatch, findField, StringFromJsString]
  · intro s
    rw [RuleFromJsRule_obj _ "PATTERN" s (by simp [findField])]
    simp [RuleDispatch, findField, StringFromJsString]
  · intro s
    rw [RuleFromJsRule_obj _ "SYMBOL" s (by simp [findField])]
    simp [RuleDispatch, findField, StringFromJsString]
  · intro s
    rw [RuleFromJsRule_obj _ "PREC" s (by simp [findField])]
    simp [RuleDispatch, findField, IntegerValue]
    rfl

theorem c4_amended_witness :
    (JsValue.num 7).isObject = false
    ∧ RuleFromJsRule (.num 7) none
        = .ok (none, some ⟨"Expected rule to be an object", false⟩)
    ∧ RuleFromJsRule (.obj [("type", .str "STRING")]) (some ⟨"prior", false⟩)
        = .ok (some (.str "undefined"), some ⟨"prior", false⟩) :=
  ⟨rfl, c4_field_validation_amended.1 (.num 7) none rfl,
   (c4_field_validation_amended.2.2.1 (some ⟨"prior", false⟩))⟩

theorem membersFromJsArray_nil (s : Pending) :
    membersFromJsArray [] s = .ok (some [], s) := rfl

theorem membersFromJsArray_cons (m : JsValue) (rest : List JsValue) (s : Pending) :
    membersFromJsArray (m :: rest) s =
      match RuleFromJsRule m s with
      | .fuelOut => .fuelOut
      | .stuck => .stuck
      | .ok (none, s1) => .ok (none, s1)
      | .ok (some r, s1) =>
        match membersFromJsArray rest s1 with
        | .fuelOut => .fuelOut
        | .stuck => .stuck
        | .ok (none, s2) => .ok (none, s2)
        | .ok (some rs, s2) => .ok (some (r :: rs), s2) := rfl

/-- When the members loop succeeds it returns exactly one built rule per
member descriptor, in the same order: each output entry is the
(successful) build of the member at the same index. -/
theorem membersFromJsArray_spec (elems : List JsValue) (s s' : Pending) (rs : List Rule)
    (h : membersFromJsArray elems s = .ok (some rs, s')) :
    rs.length = elems.length ∧
    ∀ (i : Nat) (hi : i < elems.length) (hr : i < rs.length),
      ∃ s₁ s₂, RuleFromJsRule (elems.get ⟨i, hi⟩) s₁ = .ok (some (rs.get ⟨i, hr⟩), s₂) := by
  induction elems generalizing s rs with
  | nil =>
    rw [membersFromJsArray_nil] at h
    injection h with hval
    injection hval with h1 h2
    injection h1 with h1'
    constructor
    · rw [← h1']
      rfl
    · intro i hi hr
      exact absurd hi (by simp)
  | cons m rest ih =>
    rw [membersFromJsArray_cons] at h
    cases hc : RuleFromJsRule m s with
    | fuelOut => simp only [hc] at h; exact Comp.noConfusion h
    | stuck => simp only [hc] at h; exact Comp.noConfusion h
    | ok val =>
      obtain ⟨p, s1⟩ := val
      cases p with
      | none =>
        simp only [hc] at h
        injection h with hval
        injection hval with h1 h2
        injection h1
      | some r =>
        simp only [hc] at h
        cases hrest : membersFromJsArray rest s1 with
        | fuelOut => simp only [hrest] at h; exact Comp.noConfusion h
        | stuck => simp only [hrest] at h; exact Comp.noConfusion h
        | ok val2 =>
          obtain ⟨q, s2⟩ := val2
          cases q with
          | none =>
            simp only [hrest] at h
            injection h with hval
            injection hval with h1 h2
            injection h1
          | some rs' =>
            simp only [hrest] at h
            injection h with hval
            injection hval with h1 h2
            injection h1 with h1'
            subst h1'
            subst h2
            obtain ⟨ihlen, ihpt⟩ := ih s1 rs' hrest
            constructor
            · simp [ihlen]
            · intro i hi hr
              cases i with
              | zero => exact ⟨s, s1, hc⟩
              | succ i =>
                have hi' : i < rest.length := by simpa using hi
                have hr' : i < rs'.length := by simpa using hr
                obtain ⟨a, b, hab⟩ := ihpt i hi' hr'
                exact ⟨a, b, hab⟩

/-- C5: every well-formed descriptor of each of the 13 known tags builds
the structurally corresponding Rule Node: `BLANK` yields `blank` with no
further fields consulted; `STRING`/`PATTERN`/`SYMBOL` yield the matching
leaf; a `SEQ`/`CHOICE` whose members all build yields a `seq`/`choice`
holding exactly the built members, one per member descriptor and in the
same order; `ERROR`/`REPEAT`/`REPEAT1`/`TOKEN` with a successfully built
child wrap that child; the `PREC` family wraps the built child with the
integer level (example 3: `PREC_LEFT` level 2 over `SYMBOL` "expr"). -/
theorem c5_well_formed_descriptors_build :
    (∀ (extra : List (String × JsValue)) (s : Pending),
      RuleFromJsRule (.obj (("type", .str "BLANK") :: extra)) s = .ok (some .blank, s))
    ∧ (∀ (v : String) (s : Pending),
      RuleFromJsRule (.obj [("type", .str "STRING"), ("value", .str v)]) s
        = .ok (some (.str v), s))
    ∧ (∀ (v : String) (s : Pending),
      RuleFromJsRule (.obj [("type", .str "PATTERN"), ("value", .str v)]) s
        = .ok (some (.pattern v), s))
    ∧ (∀ (n : String) (s : Pending),
      RuleFromJsRule (.obj [("type", .str "SYMBOL"), ("name", .str n)]) s
        = .ok (some (.sym n), s))
    ∧ (∀ (elems : List JsValue) (s s' : Pending) (rs : List Rule),
      membersFromJsArray elems s = .ok (some rs, s') →
      RuleFromJsRule (.obj [("type", .str "SEQ"), ("members", .arr elems)]) s
          = .ok (some (.seq rs), s')
        ∧ rs.length = elems.length
        ∧ ∀ (i : Nat) (hi : i < elems.length) (hr : i < rs.length),
            ∃ s₁ s₂, RuleFromJsRule (elems.get ⟨i, hi⟩) s₁ = .ok (some (rs.get ⟨i, hr⟩), s₂))
    ∧ (∀ (elems : List JsValue) (s s' : Pending) (rs : List Rule),
      membersFromJsArray elems s = .ok (some rs, s') →
      RuleFromJsRule (.obj [("type", .str "CHOICE"), ("members", .arr elems)]) s
          = .ok (some (.choice rs), s')
        ∧ rs.length = elems.length)
    ∧ (∀ (child : JsValue) (s s' : Pending) (r : Rule),
      RuleFromJsRule child s = .ok (some r, s') →
      RuleFromJsRule (.obj [("type", .str "ERROR"), ("value", child)]) s
        = .ok (some (.err (some r)), s'))
    ∧ (∀ (child : JsValue) (s s' : Pending) (r : Rule),
      RuleFromJsRule child s = .ok (some r, s') →
      RuleFromJsRule (.obj [("type", .str "REPEAT"), ("value", child)]) s
        = .ok (some (.rep (some r)), s'))
    ∧ (∀ (child : JsValue) (s s' : Pending) (r : Rule),
      RuleFromJsRule child s = .ok (some r, s') →
      RuleFromJsRule (.obj [("type", .str "REPEAT1"), ("value", child)]) s
        = .ok (some (.rep1 (some r)), s'))
    ∧ (∀ (child : JsValue) (s s' : Pending) (r : Rule),
      RuleFromJsRule child s = .ok (some r, s') →
      RuleFromJsRule (.obj [("type", .str "TOKEN"), ("value", child)]) s
        = .ok (some (.token (some r)), s'))
    ∧ (∀ (child : JsValue) (s s' : Pending) (r : Rule) (n : Int),
      RuleFromJsRule child s = .ok (some r, s') →
      RuleFromJsRule (.obj [("type", .str "PREC"), ("rule", child), ("value", .num n)]) s
        = .ok (some (.prec n (some r)), s'))
    ∧ (∀ (child : JsValue) (s s' : Pending) (r : Rule) (n : Int),
      RuleFromJsRule child s = .ok (some r, s') →
      RuleFromJsRule (.obj [("type", .str "PREC_LEFT"), ("value", .num n), ("rule", child)]) s
        = .ok (some (.prec_left n (some r)), s'))
    ∧ (∀ (child : JsValue) (s s' : Pending) (r : Rule) (n : Int),
      RuleFromJsRule child s = .ok (some r, s') →
      RuleFromJsRule (.obj [("type", .str "PREC_RIGHT"), ("value", .num n), ("rule", child)]) s
        = .ok (some (.prec_right n (some r)), s')) := by
  refine ⟨?_, ?_, ?_, ?_, ?_, ?_, ?_, ?_, ?_, ?_, ?_, ?_, ?_⟩
  · intro extra s
    rw [RuleFromJsRule_obj _ "BLANK" s (by simp [findField])]
    simp [RuleDispatch]
  · intro v s
    rw [RuleFromJsRule_obj _ "STRING" s (by simp [findField])]
    simp [RuleDispatch, findField, StringFromJsString]
  · intro v s
    rw [RuleFromJsRule_obj _ "PATTERN" s (by simp [findField])]
    simp [RuleDispatch, findField, StringFromJsString]
  · intro n s
    rw [RuleFromJsRule_obj _ "SYMBOL" s (by simp [findField])]
    simp [RuleDispatch, findField, StringFromJsString]
  · intro elems s s' rs h
    have hspec := membersFromJsArray_spec elems s s' rs h
    refine ⟨?_, hspec.1, hspec.2⟩
    rw [RuleFromJsRule_obj _ "SEQ" s (by simp [findField])]
    simp only [membersFromJsArray] at h
    simp [RuleDispatch, findField, h]
  · intro elems s s' rs h
    have hspec := membersFromJsArray_spec elems s s' rs h
    refine ⟨?_, hspec.1⟩
    rw [RuleFromJsRule_obj _ "CHOICE" s (by simp [findField])]
    simp only [membersFromJsArray] at h
    simp [RuleDispatch, findField, h]
  · intro child s s' r h
    rw [RuleFromJsRule_obj _ "ERROR" s (by simp [findField])]
    simp [RuleDispatch, findField, h]
  · intro child s s' r h
    rw [RuleFromJsRule_obj _ "REPEAT" s (by simp [findField])]
    simp [RuleDispatch, findField, h]
  · intro child s s' r h
    rw [RuleFromJsRule_obj _ "REPEAT1" s (by simp [findField])]
    simp [RuleDispatch, findField, h]
  · intro child s s' r h
    rw [RuleFromJsRule_obj _ "TOKEN" s (by simp [findField])]
    simp [RuleDispatch, findField, h]
  · intro child s s' r n h
    rw [RuleFromJsRule_obj _ "PREC" s (by simp [findField])]
    simp [RuleDispatch, findField, h, IntegerValue]
  · intro child s s' r n h
    rw [RuleFromJsRule_obj _ "PREC_LEFT" s (by simp [findField])]
    simp [RuleDispatch, findField, h, IntegerValue]
  · intro child s s' r n h
    rw [RuleFromJsRule_obj _ "PREC_RIGHT" s (by simp [findField])]
    simp [RuleDispatch, findField, h, IntegerValue]

theorem c5_witness :
    RuleFromJsRule (.obj [("type", .str "SEQ"),
        ("members", .arr [.obj [("type", .str "STRING"), ("value", .str "a")],
                          .obj [("type", .str "BLANK")]])]) none
      = .ok (some (.seq [.str "a", .blank]), none)
    ∧ RuleFromJsRule (.obj [("type", .str "PREC_LEFT"), ("value", .num 2),
        ("rule", .obj [("type", .str "SYMBOL"), ("name", .str "expr")])]) none
      = .ok (some (.prec_left 2 (some (.sym "expr"))), none) :=
  ⟨(c5_well_formed_descriptors_build.2.2.2.2.1
      [.obj [("type", .str "STRING"), ("value", .str "a")], .obj [("type", .str "BLANK")]]
      none none [.str "a", .blank] rfl).1,
   c5_well_formed_descriptors_build.2.2.2.2.2.2.2.2.2.2.2.1
      (.obj [("type", .str "SYMBOL"), ("name", .str "expr")]) none none (.sym "expr") 2 rfl⟩

/-- When the members before `bad` all build and `bad` fails, the loop
aborts at `bad`: the result is a null pointer with `bad`'s final pending
state, whatever descriptors follow `bad`. -/
theorem membersFromJsArray_append_fail (pre : List JsValue) (bad : JsValue) (t : List JsValue)
    (s s₁ s₂ : Pending) (rs : List Rule)
    (hpre : membersFromJsArray pre s = .ok (some rs, s₁))
    (hbad : RuleFromJsRule bad s₁ = .ok (none, s₂)) :
    membersFromJsArray (pre ++ bad :: t) s = .ok (none, s₂) := by
  induction pre generalizing s rs with
  | nil =>
    rw [membersFromJsArray_nil] at hpre
    injection hpre with hval
    injection hval with h1 h2
    subst h2
    rw [List.nil_append, membersFromJsArray_cons]
    simp only [hbad]
  | cons m pre' ih =>
    rw [membersFromJsArray_cons] at hpre
    cases hc : RuleFromJsRule m s with
    | fuelOut => simp only [hc] at hpre; exact Comp.noConfusion hpre
    | stuck => simp only [hc] at hpre; exact Comp.noConfusion hpre
    | ok val =>
      obtain ⟨p, σ⟩ := val
      cases p with
      | none =>
        simp only [hc] at hpre
        injection hpre with hval
        injection hval with h1 h2
        injection h1
      | some r =>
        simp only [hc] at hpre
        cases hrest : membersFromJsArray pre' σ with
        | fuelOut => simp only [hrest] at hpre; exact Comp.noConfusion hpre
        | stuck => simp only [hrest] at hpre; exact Comp.noConfusion hpre
        | ok val2 =>
          obtain ⟨q, σ2⟩ := val2
          cases q with
          | none =>
            simp only [hrest] at hpre
            injection hpre with hval
            injection hval with h1 h2
            injection h1
          | some rs' =>
            simp only [hrest] at hpre
            injection hpre with hval
            injection hval with h1 h2
            subst h2
            rw [List.cons_append, membersFromJsArray_cons]
            simp only [hc]
            simp only [ih σ rs' hrest]

/-- C6: `SEQ`/`CHOICE` construction is eager-abort.  If the members
before `bad` all build (with threaded pending state) and `bad` fails to
build, the whole rule returns a null pointer immediately — no Rule Node
— carrying exactly the failing member's final pending error; the result
is the same for every list of members after `bad`, which are therefore
never built. -/
theorem c6_eager_abort (pre : List JsValue) (bad : JsValue) (t : List JsValue)
    (s s₁ s₂ : Pending) (rs : List Rule)
    (hpre : membersFromJsArray pre s = .ok (some rs, s₁))
    (hbad : RuleFromJsRule bad s₁ = .ok (none, s₂)) :
    RuleFromJsRule (.obj [("type", .str "SEQ"), ("members", .arr (pre ++ bad :: t))]) s
      = .ok (none, s₂)
    ∧ RuleFromJsRule (.obj [("type", .str "CHOICE"), ("members", .arr (pre ++ bad :: t))]) s
      = .ok (none, s₂) := by
  have hmem := membersFromJsArray_append_fail pre bad t s s₁ s₂ rs hpre hbad
  simp only [membersFromJsArray] at hmem
  constructor
  · rw [RuleFromJsRule_obj _ "SEQ" s (by simp [findField])]
    simp [RuleDispatch, findField, hmem]
  · rw [RuleFromJsRule_obj _ "CHOICE" s (by simp [findField])]
    simp [RuleDispatch, findField, hmem]

theorem c6_witness :
    RuleFromJsRule (.obj [("type", .str "SEQ"),
        ("members", .arr ([.obj [("type", .str "STRING"), ("value", .str "a")]]
          ++ .obj [("type", .str "FOO")] :: [.arr []]))]) none
      = .ok (none, some ⟨"Unexpected rule type: FOO", false⟩)
    ∧ RuleFromJsRule (.obj [("type", .str "CHOICE"),
        ("members", .arr ([.obj [("type", .str "STRING"), ("value", .str "a")]]
          ++ .obj [("type", .str "FOO")] :: [.arr []]))]) none
      = .ok (none, some ⟨"Unexpected rule type: FOO", false⟩) :=
  c6_eager_abort [.obj [("type", .str "STRING"), ("value", .str "a")]]
    (.obj [("type", .str "FOO")]) [.arr []]
    none none (some ⟨"Unexpected rule type: FOO", false⟩) [.str "a"] rfl rfl

/-- When the rule-building loop of the assembler succeeds, the resulting
pair list carries exactly the enumerated keys, in the same order, and
each key is paired with a successful build of its looked-up
descriptor. -/
theorem rulesFromJsObject_ok (rf : List (String × JsValue)) (keys : List String)
    (s s' : Pending) (prs : List (String × Rule))
    (h : rulesFromJsObject rf keys s = .ok (some prs, s')) :
    prs.map Prod.fst = keys ∧
    ∀ (i : Nat) (hi : i < keys.length) (hp : i < prs.length),
      ∃ s₁ s₂, RuleFromJsRule (findField rf (keys.get ⟨i, hi⟩)) s₁
        = .ok (some (prs.get ⟨i, hp⟩).2, s₂) := by
  induction keys generalizing s prs with
  | nil =>
    simp only [rulesFromJsObject] at h
    injection h with hval
    injection hval with h1 h2
    injection h1 with h1'
    constructor
    · rw [← h1']
      rfl
    · intro i hi hp
      exact absurd hi (by simp)
  | cons name rest ih =>
    simp only [rulesFromJsObject] at h
    cases hc : RuleFromJsRule (findField rf name) s with
    | fuelOut => simp only [hc] at h; exact Comp.noConfusion h
    | stuck => simp only [hc] at h; exact Comp.noConfusion h
    | ok val =>
      obtain ⟨p, s1⟩ := val
      cases p with
      | none =>
        simp only [hc] at h
        injection h with hval
        injection hval with h1 h2
        injection h1
      | some r =>
        simp only [hc] at h
        cases hrest : rulesFromJsObject rf rest s1 with
        | fuelOut => simp only [hrest] at h; exact Comp.noConfusion h
        | stuck => simp only [hrest] at h; exact Comp.noConfusion h
        | ok val2 =>
          obtain ⟨q, s2⟩ := val2
          cases q with
          | none =>
            simp only [hrest] at h
            injection h with hval
            injection hval with h1 h2
            injection h1
          | some prs' =>
            simp only [hrest] at h
            injection h with hval
            injection hval with h1 h2
            injection h1 with h1'
            subst h1'
            subst h2
            obtain ⟨ihkeys, ihpt⟩ := ih s1 prs' hrest
            constructor
            · simp [ihkeys]
            · intro i hi hp
              cases i with
              | zero => exact ⟨s, s1, hc⟩
              | succ i =>
                have hi' : i < rest.length := by simpa using hi
                have hp' : i < prs'.length := by simpa using hp
                obtain ⟨a, b, hab⟩ := ihpt i hi' hp'
                exact ⟨a, b, hab⟩

/-- C8: when every entry of the rules mapping builds, the assembled
Grammar's rule list pairs exactly the mapping's own keys with their
built Rule Nodes, in the mapping's enumeration (declaration) order —
never re-sorted: the output names are the keys in order, and the rule at
each index is the successful build of the descriptor looked up at the
key of the same index. -/
theorem c8_rule_order_preserved (gf rf : List (String × JsValue))
    (s s' : Pending) (prs : List (String × Rule))
    (hr : findField gf "rules" = .obj rf)
    (hub : findField gf "ubiquitous" = .undef)
    (hb : rulesFromJsObject rf (rf.map Prod.fst) s = .ok (some prs, s')) :
    GrammarFromJsGrammar (.obj gf) s = .ok ((⟨prs, []⟩, true), s')
    ∧ prs.map Prod.fst = rf.map Prod.fst
    ∧ ∀ (i : Nat) (hi : i < (rf.map Prod.fst).length) (hp : i < prs.length),
        ∃ s₁ s₂, RuleFromJsRule (findField rf ((rf.map Prod.fst).get ⟨i, hi⟩)) s₁
          = .ok (some (prs.get ⟨i, hp⟩).2, s₂) := by
  have hspec := rulesFromJsObject_ok rf (rf.map Prod.fst) s s' prs hb
  refine ⟨?_, hspec.1, hspec.2⟩
  simp [GrammarFromJsGrammar, hr, hub, hb]

theorem c8_witness :
    GrammarFromJsGrammar (.obj [("rules", .obj
        [("b", .obj [("type", .str "BLANK")]),
         ("a", .obj [("type", .str "BLANK")]),
         ("c", .obj [("type", .str "STRING"), ("value", .str "x")])])]) none
      = .ok ((⟨[("b", .blank), ("a", .blank), ("c", .str "x")], []⟩, true), none)
    ∧ [("b", Rule.blank), ("a", Rule.blank), ("c", Rule.str "x")].map Prod.fst
      = ["b", "a", "c"] := by
  have h := c8_rule_order_preserved
    [("rules", .obj [("b", .obj [("type", .str "BLANK")]),
        ("a", .obj [("type", .str "BLANK")]),
        ("c", .obj [("type", .str "STRING"), ("value", .str "x")])])]
    [("b", .obj [("type", .str "BLANK")]),
     ("a", .obj [("type", .str "BLANK")]),
     ("c", .obj [("type", .str "STRING"), ("value", .str "x")])]
    none none [("b", .blank), ("a", .blank), ("c", .str "x")] rfl rfl rfl
  exact ⟨h.1, h.2.1⟩

/-- C7 counterexample: a present-but-non-array `ubiquitous` field does
make assembly fail, but the shape error's message is
"Expected ubiquitous_tokens to be an array" — not the claimed
"expected ubiquitous tokens to be an array". -/
theorem c7_counterexample :
    GrammarFromJsGrammar (.obj [("rules", .obj []), ("ubiquitous", .str "x")]) none
      = .ok ((⟨[], []⟩, false), some ⟨"Expected ubiquitous_tokens to be an array", false⟩)
    ∧ "Expected ubiquitous_tokens to be an array"
      ≠ "expected ubiquitous tokens to be an array" :=
  ⟨rfl, by decide⟩

/-- C7 amended: with the rules built successfully, an entirely absent
`ubiquitous` field yields a Grammar with an empty ubiquitous-token list
and no error, while a present-but-non-array `ubiquitous` field makes
assembly fail with the shape error "Expected ubiquitous_tokens to be an
array" (the message uses the identifier `ubiquitous_tokens`, not the
words "ubiquitous tokens"). -/
theorem c7_ubiquitous_amended (gf rf : List (String × JsValue)) (s s' : Pending)
    (prs : List (String × Rule)) (u : JsValue)
    (hr : findField gf "rules" = .obj rf)
    (hb : rulesFromJsObject rf (rf.map Prod.fst) s = .ok (some prs, s')) :
    (findField gf "ubiquitous" = .undef →
      GrammarFromJsGrammar (.obj gf) s = .ok ((⟨prs, []⟩, true), s'))
    ∧ (findField gf "ubiquitous" = u → u.isUndefined = false → u.isArray = false →
      GrammarFromJsGrammar (.obj gf) s
        = .ok ((⟨[], []⟩, false),
            some ⟨"Expected ubiquitous_tokens to be an array", false⟩)) := by
  constructor
  · intro hub
    simp [GrammarFromJsGrammar, hr, hub, hb]
  · intro hub hu1 hu2
    subst hub
    cases hval : findField gf "ubiquitous" with
    | undef => rw [hval] at hu1; simp [JsValue.isUndefined] at hu1
    | arr ts => rw [hval] at hu2; simp [JsValue.isArray] at hu2
    | boolean b => simp [GrammarFromJsGrammar, hr, hb, hval, NanThrowTypeError]
    | num n => simp [GrammarFromJsGrammar, hr, hb, hval, NanThrowTypeError]
    | str v => simp [GrammarFromJsGrammar, hr, hb, hval, NanThrowTypeError]
    | obj fs => simp [GrammarFromJsGrammar, hr, hb, hval, NanThrowTypeError]

theorem c7_witness :
    GrammarFromJsGrammar (.obj [("rules", .obj [])]) none = .ok ((⟨[], []⟩, true), none)
    ∧ GrammarFromJsGrammar (.obj [("rules", .obj []), ("ubiquitous", .num 5)]) none
      = .ok ((⟨[], []⟩, false),
          some ⟨"Expected ubiquitous_tokens to be an array", false⟩) :=
  ⟨(c7_ubiquitous_amended [("rules", .obj [])] [] none none [] .undef rfl rfl).1 rfl,
   (c7_ubiquitous_amended [("rules", .obj []), ("ubiquitous", .num 5)] [] none none []
      (.num 5) rfl rfl).2 rfl rfl rfl⟩

theorem membersLoop_untagged (recurse : JsValue → Pending → Comp (Option Rule × Pending))
    (ms : List JsValue) (s : Pending) (p : Option (List Rule)) (s' : Pending)
    (hrec : ∀ v t q t', recurse v t = .ok (q, t') → t' = t ∨ ∃ m, t' = some ⟨m, false⟩)
    (h : membersLoop recurse ms s = .ok (p, s')) :
    s' = s ∨ ∃ m, s' = some ⟨m, false⟩ := by
  induction ms generalizing s p s' with
  | nil =>
    simp only [membersLoop] at h
    injection h with hval
    injection hval with _ h2
    exact Or.inl h2.symm
  | cons m rest ih =>
    simp only [membersLoop] at h
    cases hc : recurse m s with
    | fuelOut => simp only [hc] at h; exact Comp.noConfusion h
    | stuck => simp only [hc] at h; exact Comp.noConfusion h
    | ok val =>
      obtain ⟨q, s1⟩ := val
      have hq := hrec m s q s1 hc
      cases q with
      | none =>
        simp only [hc] at h
        injection h with hval
        injection hval with _ h2
        exact h2 ▸ hq
      | some r =>
        simp only [hc] at h
        cases hrest : membersLoop recurse rest s1 with
        | fuelOut => simp only [hrest] at h; exact Comp.noConfusion h
        | stuck => simp only [hrest] at h; exact Comp.noConfusion h
        | ok val2 =>
          obtain ⟨q2, s2⟩ := val2
          have h2q := ih s1 q2 s2 hrest
          have hcomb : s2 = s ∨ ∃ m, s2 = some ⟨m, false⟩ := by
            rcases h2q with h2q | h2q
            · exact h2q ▸ hq
            · exact Or.inr h2q
          cases q2 with
          | none =>
            simp only [hrest] at h
            injection h with hval
            injection hval with _ h2
            exact h2 ▸ hcomb
          | some rs2 =>
            simp only [hrest] at h
            injection h with hval
            injection hval with _ h2
            exact h2 ▸ hcomb

theorem RuleDispatch_untagged (recurse : JsValue → Pending → Comp (Option Rule × Pending))
    (fields : List (String × JsValue)) (type : String) (s : Pending)
    (p : Option Rule) (s' : Pending)
    (hrec : ∀ v t q t', recurse v t = .ok (q, t') → t' = t ∨ ∃ m, t' = some ⟨m, false⟩)
    (h : RuleDispatch recurse fields type s = .ok (p, s')) :
    s' = s ∨ ∃ m, s' = some ⟨m, false⟩ := by
  have hmems : ∀ (wrap : List Rule → Pending → Option Rule),
      (match findField fields "members" with
        | JsValue.arr elems =>
          (match membersLoop recurse elems s with
            | .fuelOut => Comp.fuelOut
            | .stuck => Comp.stuck
            | .ok (none, s1) => Comp.ok (none, s1)
            | .ok (some ms, s1) => Comp.ok (wrap ms s1, s1))
        | _ => Comp.stuck) = .ok (p, s') →
      s' = s ∨ ∃ m, s' = some ⟨m, false⟩ := by
    intro wrap hma
    cases hval : findField fields "members" with
    | arr elems =>
      simp only [hval] at hma
      cases hl : membersLoop recurse elems s with
      | fuelOut => simp only [hl] at hma; exact Comp.noConfusion hma
      | stuck => simp only [hl] at hma; exact Comp.noConfusion hma
      | ok val =>
        obtain ⟨q, s1⟩ := val
        have huntag := membersLoop_untagged recurse elems s q s1 hrec hl
        cases q with
        | none =>
          simp only [hl] at hma
          injection hma with hval2
          injection hval2 with _ h2
          exact h2 ▸ huntag
        | some ms2 =>
          simp only [hl] at hma
          injection hma with hval2
          injection hval2 with _ h2
          exact h2 ▸ huntag
    | undef => simp only [hval] at hma; exact Comp.noConfusion hma
    | boolean b => simp only [hval] at hma; exact Comp.noConfusion hma
    | num n => simp only [hval] at hma; exact Comp.noConfusion hma
    | str v => simp only [hval] at hma; exact Comp.noConfusion hma
    | obj fs => simp only [hval] at hma; exact Comp.noConfusion hma
  have hsingle : ∀ (key : String) (wrap : Option Rule → Option Rule),
      (match recurse (findField fields key) s with
        | .fuelOut => Comp.fuelOut
        | .stuck => Comp.stuck
        | .ok (q, s1) => Comp.ok (wrap q, s1)) = .ok (p, s') →
      s' = s ∨ ∃ m, s' = some ⟨m, false⟩ := by
    intro key wrap hsa
    cases hc : recurse (findField fields key) s with
    | fuelOut => simp only [hc] at hsa; exact Comp.noConfusion hsa
    | stuck => simp only [hc] at hsa; exact Comp.noConfusion hsa
    | ok val =>
      obtain ⟨q, s1⟩ := val
      have hq := hrec _ _ q s1 hc
      simp only [hc] at hsa
      injection hsa with hval2
      injection hval2 with _ h2
      exact h2 ▸ hq
  have hstrleaf : ∀ (key : String) (wrap : String → Option Rule),
      (match StringFromJsString (findField fields key) with
        | none => Comp.stuck
        | some v => Comp.ok (wrap v, s)) = .ok (p, s') →
      s' = s ∨ ∃ m, s' = some ⟨m, false⟩ := by
    intro key wrap hla
    cases hsv : StringFromJsString (findField fields key) with
    | none => simp only [hsv] at hla; exact Comp.noConfusion hla
    | some v =>
      simp only [hsv] at hla
      injection hla with hval2
      injection hval2 with _ h2
      exact Or.inl h2.symm
  have hprec : ∀ (key : String) (wrap : Int → Option Rule → Option Rule),
      (match recurse (findField fields key) s with
        | .fuelOut => Comp.fuelOut
        | .stuck => Comp.stuck
        | .ok (none, s1) => Comp.ok (none, s1)
        | .ok (some r, s1) =>
          (match IntegerValue (findField fields "value") with
            | none => Comp.stuck
            | some n => Comp.ok (wrap n (some r), s1))) = .ok (p, s') →
      s' = s ∨ ∃ m, s' = some ⟨m, false⟩ := by
    intro key wrap hpa
    cases hc : recurse (findField fields key) s with
    | fuelOut => simp only [hc] at hpa; exact Comp.noConfusion hpa
    | stuck => simp only [hc] at hpa; exact Comp.noConfusion hpa
    | ok val =>
      obtain ⟨q, s1⟩ := val
      have hq := hrec _ _ q s1 hc
      cases q with
      | none =>
        simp only [hc] at hpa
        injection hpa with hval2
        injection hval2 with _ h2
        exact h2 ▸ hq
      | some r =>
        simp only [hc] at hpa
        cases hiv : IntegerValue (findField fields "value") with
        | none => simp only [hiv] at hpa; exact Comp.noConfusion hpa
        | some n =>
          simp only [hiv] at hpa
          injection hpa with hval2
          injection hval2 with _ h2
          exact h2 ▸ hq
  simp only [RuleDispatch] at h
  by_cases h1 : type = "BLANK"
  · simp only [if_pos h1] at h
    injection h with hval
    injection hval with _ h2
    exact Or.inl h2.symm
  simp only [if_neg h1] at h
  by_cases h2 : type = "CHOICE"
  · simp only [if_pos h2] at h
    exact hmems (fun ms _ => some (.choice ms)) h
  simp only [if_neg h2] at h
  by_cases h3 : type = "ERROR"
  · simp only [if_pos h3] at h
    exact hsingle "value" (fun q => some (.err q)) h
  simp only [if_neg h3] at h
  by_cases h4 : type = "PATTERN"
  · simp only [if_pos h4] at h
    exact hstrleaf "value" (fun v => some (.pattern v)) h
  simp only [if_neg h4] at h
  by_cases h5 : type = "REPEAT"
  · simp only [if_pos h5] at h
    exact hsingle "value" (fun q => some (.rep q)) h
  simp only [if_neg h5] at h
  by_cases h6 : type = "REPEAT1"
  · simp only [if_pos h6] at h
    exact hsingle "value" (fun q => some (.rep1 q)) h
  simp only [if_neg h6] at h
  by_cases h7 : type = "SEQ"
  · simp only [if_pos h7] at h
    exact hmems (fun ms _ => some (.seq ms)) h
  simp only [if_neg h7] at h
  by_cases h8 : type = "STRING"
  · simp only [if_pos h8] at h
    exact hstrleaf "value" (fun v => some (.str v)) h
  simp only [if_neg h8] at h
  by_cases h9 : type = "PREC"
  · simp only [if_pos h9] at h
    exact hprec "rule" (fun n r => some (.prec n r)) h
  simp only [if_neg h9] at h
  by_cases h10 : type = "PREC_LEFT"
  · simp only [if_pos h10] at h
    exact hprec "rule" (fun n r => some (.prec_left n r)) h
  simp only [if_neg h10] at h
  by_cases h11 : type = "PREC_RIGHT"
  · simp only [if_pos h11] at h
    exact hprec "rule" (fun n r => some (.prec_right n r)) h
  simp only [if_neg h11] at h
  by_cases h12 : type = "TOKEN"
  · simp only [if_pos h12] at h
    cases hc : recurse (findField fields "value") s with
    | fuelOut => simp only [hc] at h; exact Comp.noConfusion h
    | stuck => simp only [hc] at h; exact Comp.noConfusion h
    | ok val =>
      obtain ⟨q, s1⟩ := val
      have hq := hrec _ _ q s1 hc
      cases q with
      | none =>
        simp only [hc] at h
        injection h with hval
        injection hval with _ hs2
        exact hs2 ▸ hq
      | some r =>
        simp only [hc] at h
        injection h with hval
        injection hval with _ hs2
        exact hs2 ▸ hq
  simp only [if_neg h12] at h
  by_cases h13 : type = "SYMBOL"
  · simp only [if_pos h13] at h
    exact hstrleaf "name" (fun v => some (.sym v)) h
  simp only [if_neg h13] at h
  injection h with hval
  injection hval with _ h2
  exact Or.inr ⟨"Unexpected rule type: " ++ type, h2.symm⟩

theorem ruleF_untagged :
    ∀ (f : Nat) (r : JsValue) (s : Pending) (p : Option Rule) (s' : Pending),
      RuleFromJsRuleF f r s = .ok (p, s') →
      s' = s ∨ ∃ m, s' = some ⟨m, false⟩ := by
  intro f
  induction f with
  | zero => intro r s p s' h; exact Comp.noConfusion h
  | succ f ih =>
    intro r s p s' h
    cases r with
    | undef =>
      injection h with hval
      injection hval with _ h2
      exact Or.inr ⟨"Expected rule to be an object", h2.symm⟩
    | boolean b =>
      injection h with hval
      injection hval with _ h2
      exact Or.inr ⟨"Expected rule to be an object", h2.symm⟩
    | num n =>
      injection h with hval
      injection hval with _ h2
      exact Or.inr ⟨"Expected rule to be an object", h2.symm⟩
    | str v =>
      injection h with hval
      injection hval with _ h2
      exact Or.inr ⟨"Expected rule to be an object", h2.symm⟩
    | arr elems => exact Comp.noConfusion h
    | obj fields =>
      simp only [RuleFromJsRuleF] at h
      cases hty : findField fields "type" with
      | str type =>
        simp only [hty] at h
        exact RuleDispatch_untagged (RuleFromJsRuleF f) fields type s p s'
          (fun v t q t' hv => ih v t q t' hv) h
      | undef =>
        simp only [hty] at h
        injection h with hval
        injection hval with _ h2
        exact Or.inr ⟨"Expected rule type to be a string", h2.symm⟩
      | boolean b =>
        simp only [hty] at h
        injection h with hval
        injection hval with _ h2
        exact Or.inr ⟨"Expected rule type to be a string", h2.symm⟩
      | num n =>
        simp only [hty] at h
        injection h with hval
        injection hval with _ h2
        exact Or.inr ⟨"Expected rule type to be a string", h2.symm⟩
      | arr es =>
        simp only [hty] at h
        injection h with hval
        injection hval with _ h2
        exact Or.inr ⟨"Expected rule type to be a string", h2.symm⟩
      | obj fs =>
        simp only [hty] at h
        injection h with hval
        injection hval with _ h2
        exact Or.inr ⟨"Expected rule type to be a string", h2.symm⟩

theorem RuleFromJsRule_untagged (r : JsValue) (s : Pending) (p : Option Rule) (s' : Pending)
    (h : RuleFromJsRule r s = .ok (p, s')) :
    s' = s ∨ ∃ m, s' = some ⟨m, false⟩ :=
  ruleF_untagged (sizeOf r + 1) r s p s' h

theorem rulesFromJsObject_untagged (rf : List (String × JsValue)) (keys : List String)
    (s : Pending) (p : Option (List (String × Rule))) (s' : Pending)
    (h : rulesFromJsObject rf keys s = .ok (p, s')) :
    s' = s ∨ ∃ m, s' = some ⟨m, false⟩ := by
  induction keys generalizing s p s' with
  | nil =>
    simp only [rulesFromJsObject] at h
    injection h with hval
    injection hval with _ h2
    exact Or.inl h2.symm
  | cons name rest ih =>
    simp only [rulesFromJsObject] at h
    cases hc : RuleFromJsRule (findField rf name) s with
    | fuelOut => simp only [hc] at h; exact Comp.noConfusion h
    | stuck => simp only [hc] at h; exact Comp.noConfusion h
    | ok val =>
      obtain ⟨q, s1⟩ := val
      have hq := RuleFromJsRule_untagged _ _ q s1 hc
      cases q with
      | none =>
        simp only [hc] at h
        injection h with hval
        injection hval with _ h2
        exact h2 ▸ hq
      | some r =>
        simp only [hc] at h
        cases hrest : rulesFromJsObject rf rest s1 with
        | fuelOut => simp only [hrest] at h; exact Comp.noConfusion h
        | stuck => simp only [hrest] at h; exact Comp.noConfusion h
        | ok val2 =>
          obtain ⟨q2, s2⟩ := val2
          have h2q := ih s1 q2 s2 hrest
          have hcomb : s2 = s ∨ ∃ m, s2 = some ⟨m, false⟩ := by
            rcases h2q with h2q | h2q
            · exact h2q ▸ hq
            · exact Or.inr h2q
          cases q2 with
          | none =>
            simp only [hrest] at h
            injection h with hval
            injection hval with _ h2
            exact h2 ▸ hcomb
          | some prs =>
            simp only [hrest] at h
            injection h with hval
            injection hval with _ h2
            exact h2 ▸ hcomb

theorem ubiquitousFromJsArray_untagged (ts : List JsValue) (s : Pending)
    (ps : List (Option Rule)) (s' : Pending)
    (h : ubiquitousFromJsArray ts s = .ok (ps, s')) :
    s' = s ∨ ∃ m, s' = some ⟨m, false⟩ := by
  induction ts generalizing s ps s' with
  | nil =>
    simp only [ubiquitousFromJsArray] at h
    injection h with hval
    injection hval with _ h2
    exact Or.inl h2.symm
  | cons m rest ih =>
    simp only [ubiquitousFromJsArray] at h
    cases hc : RuleFromJsRule m s with
    | fuelOut => simp only [hc] at h; exact Comp.noConfusion h
    | stuck => simp only [hc] at h; exact Comp.noConfusion h
    | ok val =>
      obtain ⟨q, s1⟩ := val
      have hq := RuleFromJsRule_untagged _ _ q s1 hc
      simp only [hc] at h
      cases hrest : ubiquitousFromJsArray rest s1 with
      | fuelOut => simp only [hrest] at h; exact Comp.noConfusion h
      | stuck => simp only [hrest] at h; exact Comp.noConfusion h
      | ok val2 =>
        obtain ⟨q2, s2⟩ := val2
        have h2q := ih s1 q2 s2 hrest
        simp only [hrest] at h
        injection h with hval
        injection hval with _ h2
        have hcomb : s2 = s ∨ ∃ m, s2 = some ⟨m, false⟩ := by
          rcases h2q with h2q | h2q
          · exact h2q ▸ hq
          · exact Or.inr h2q
        exact h2 ▸ hcomb

theorem GrammarFromJsGrammar_untagged (jsg : JsValue) (s : Pending)
    (gb : Grammar × Bool) (s' : Pending)
    (h : GrammarFromJsGrammar jsg s = .ok (gb, s')) :
    s' = s ∨ ∃ m, s' = some ⟨m, false⟩ := by
  cases jsg with
  | undef => exact Comp.noConfusion h
  | boolean b => exact Comp.noConfusion h
  | num n => exact Comp.noConfusion h
  | str v => exact Comp.noConfusion h
  | arr es => exact Comp.noConfusion h
  | obj gf =>
    simp only [GrammarFromJsGrammar] at h
    cases hr : findField gf "rules" with
    | obj rf =>
      simp only [hr] at h
      cases hb : rulesFromJsObject rf (rf.map Prod.fst) s with
      | fuelOut => simp only [hb] at h; exact Comp.noConfusion h
      | stuck => simp only [hb] at h; exact Comp.noConfusion h
      | ok val =>
        obtain ⟨q, s1⟩ := val
        have hq := rulesFromJsObject_untagged rf (rf.map Prod.fst) s q s1 hb
        cases q with
        | none =>
          simp only [hb] at h
          injection h with hval
          injection hval with _ h2
          exact h2 ▸ hq
        | some rules =>
          simp only [hb] at h
          cases hu : findField gf "ubiquitous" with
          | undef =>
            simp only [hu] at h
            injection h with hval
            injection hval with _ h2
            exact h2 ▸ hq
          | arr ts =>
            simp only [hu] at h
            cases hub : ubiquitousFromJsArray ts s1 with
            | fuelOut => simp only [hub] at h; exact Comp.noConfusion h
            | stuck => simp only [hub] at h; exact Comp.noConfusion h
            | ok val2 =>
              obtain ⟨ps, s2⟩ := val2
              have h2q := ubiquitousFromJsArray_untagged ts s1 ps s2 hub
              simp only [hub] at h
              injection h with hval
              injection hval with _ h2
              have hcomb : s2 = s ∨ ∃ m, s2 = some ⟨m, false⟩ := by
                rcases h2q with h2q | h2q
                · exact h2q ▸ hq
                · exact Or.inr h2q
              exact h2 ▸ hcomb
          | boolean b =>
            simp only [hu] at h
            injection h with hval
            injection hval with _ h2
            exact Or.inr ⟨"Expected ubiquitous_tokens to be an array", h2.symm⟩
          | num n =>
            simp only [hu] at h
            injection h with hval
            injection hval with _ h2
            exact Or.inr ⟨"Expected ubiquitous_tokens to be an array", h2.symm⟩
          | str v =>
            simp only [hu] at h
            injection h with hval
            injection hval with _ h2
            exact Or.inr ⟨"Expected ubiquitous_tokens to be an array", h2.symm⟩
          | obj fs =>
            simp only [hu] at h
            injection h with hval
            injection hval with _ h2
            exact Or.inr ⟨"Expected ubiquitous_tokens to be an array", h2.symm⟩
    | arr es => simp only [hr] at h; exact Comp.noConfusion h
    | undef =>
      simp only [hr] at h
      injection h with hval
      injection hval with _ h2
      exact Or.inr ⟨"Expected rules to be an object", h2.symm⟩
    | boolean b =>
      simp only [hr] at h
      injection h with hval
      injection hval with _ h2
      exact Or.inr ⟨"Expected rules to be an object", h2.symm⟩
    | num n =>
      simp only [hr] at h
      injection h with hval
      injection hval with _ h2
      exact Or.inr ⟨"Expected rules to be an object", h2.symm⟩
    | str v =>
      simp only [hr] at h
      injection h with hval
      injection hval with _ h2
      exact Or.inr ⟨"Expected rules to be an object", h2.symm⟩

/-- C9: when the external compiler rejects the assembled Grammar, the
surfaced (pending) error carries the compiler's diagnostic message and
the `isGrammarError` marker set to `true`; by contrast, every pending
error produced by rule building or by grammar assembly (the validation
errors) carries `isGrammarError = false`, so callers can tell the two
apart. -/
theorem c9_compiler_error_tagged
    (cf : Grammar → String → String × Option GrammarError)
    (gf : List (String × JsValue)) (s s' : Pending) (nm : String)
    (g : Grammar) (out : String) (e : GrammarError)
    (r : JsValue) (σ σ' : Pending) (q : Option Rule)
    (jsg : JsValue) (τ τ' : Pending) (gb : Grammar × Bool)
    (hname : findField gf "name" = .str nm)
    (hassemble : GrammarFromJsGrammar (.obj gf) s = .ok ((g, true), s'))
    (hcf : cf g nm = (out, some e))
    (hrule : RuleFromJsRule r σ = .ok (q, σ'))
    (hgram : GrammarFromJsGrammar jsg τ = .ok (gb, τ')) :
    Compile cf (.obj gf) s = .ok (some out, some ⟨e.message, true⟩)
    ∧ (σ' = σ ∨ ∃ m, σ' = some ⟨m, false⟩)
    ∧ (τ' = τ ∨ ∃ m, τ' = some ⟨m, false⟩) := by
  refine ⟨?_, RuleFromJsRule_untagged r σ q σ' hrule,
    GrammarFromJsGrammar_untagged jsg τ gb τ' hgram⟩
  simp [Compile, JsValue.isObject, JsValue.isString, hname, StringFromJsString,
    hassemble, hcf]

theorem c9_witness :
    Compile (fun _ _ => ("", some ⟨"undefined rule expr"⟩))
        (.obj [("name", .str "g"), ("rules", .obj [])]) none
      = .ok (some "", some ⟨"undefined rule expr", true⟩)
    ∧ ((some ⟨"Expected rule to be an object", false⟩ : Pending) = none
        ∨ ∃ m, (some ⟨"Expected rule to be an object", false⟩ : Pending) = some ⟨m, false⟩)
    ∧ ((none : Pending) = none ∨ ∃ m, (none : Pending) = some ⟨m, false⟩) :=
  c9_compiler_error_tagged (fun _ _ => ("", some ⟨"undefined rule expr"⟩))
    [("name", .str "g"), ("rules", .obj [])] none none "g" ⟨[], []⟩ "" ⟨"undefined rule expr"⟩
    (.num 0) none (some ⟨"Expected rule to be an object", false⟩) none
    (.obj [("rules", .obj [])]) none none (⟨[], []⟩, true)
    rfl rfl rfl rfl rfl

end NodeTreeSitterCompiler
